import Mathlib

/-!
Verification development for the Hermetik APY-model pipeline
(`main_ec2.py`).  The Python functions relevant to the claims are embedded
shallowly: pandas data frames become lists of records, machine floats
become exact rationals, and try/except fallback chains become functions of
Option-valued attempt results (the attempted networkx call is external, so
its outcome is a parameter).
-/

/-- One row of the transaction-event log table
(columns Transaction Hash, Contract Address, Input Token, Output Token,
Block Number). -/
structure LogRow where
  txHash : String
  contract : String
  inputToken : String
  outputToken : String
  block : ℕ
deriving DecidableEq, Repr

/-- Distinct contract addresses of a log batch (the keys of the Python
dict built by `calculate_contract_centrality`).  Mathlib's dedup keeps the
last occurrence of each address where the Python dict keeps the first;
the order is irrelevant to every claim below, which are all stated up to
membership. -/
def contractsIn (logs : List LogRow) : List String :=
  (logs.map (·.contract)).dedup

/-- The per-contract token set of `calculate_contract_centrality`
(its dict `contract_tokens`): the set of ALL tokens contract `c` touches —
each row contributes both its input and its output token to the same set. -/
def contractTokens (logs : List LogRow) (c : String) : List String :=
  ((logs.filter (·.contract = c)).flatMap
    (fun r => [r.inputToken, r.outputToken])).dedup

/-- Tokens shared by the pooled token sets of two contracts: the value of
the intersection taken in `calculate_contract_centrality`, where both
operands are the pooled per-contract token sets. -/
def sharedTokens (logs : List LogRow) (a b : String) : List String :=
  (contractTokens logs a).filter (· ∈ contractTokens logs b)

/-- The weighted edge list built by `calculate_contract_centrality`:
for every ordered pair of distinct contracts whose pooled token sets
overlap, a directed edge weighted by the overlap size. -/
def flowEdges (logs : List LogRow) : List (String × String × ℕ) :=
  (contractsIn logs).flatMap (fun a =>
    (contractsIn logs).filterMap (fun b =>
      if a = b then none
      else if (sharedTokens logs a b).isEmpty then none
      else some (a, b, (sharedTokens logs a b).length)))

/-- Modelled from the spec: the set of tokens contract `c` is observed to
OUTPUT.  `calculate_contract_centrality` never computes this set
separately; it exists here only to compare the spec's edge rule with the
code's. -/
def specOutputTokens (logs : List LogRow) (c : String) : List String :=
  ((logs.filter (·.contract = c)).map (·.outputToken)).dedup

/-- Modelled from the spec: the set of tokens contract `c` is observed to
INPUT.  `calculate_contract_centrality` never computes this set
separately; it exists here only to compare the spec's edge rule with the
code's. -/
def specInputTokens (logs : List LogRow) (c : String) : List String :=
  ((logs.filter (·.contract = c)).map (·.inputToken)).dedup

/-- The pandas quantile with the default linear interpolation, over exact
rationals: with the data sorted ascending, the value at fractional rank
`h = q * (n - 1)` interpolated between the two neighbouring order
statistics.  Returns 0 on empty data (pandas returns NaN there; no claim
evaluates the quantile of an empty series). -/
def panQuantile (xs : List ℚ) (q : ℚ) : ℚ :=
  let s := xs.insertionSort (· ≤ ·)
  if s.length = 0 then 0
  else
    let m : ℕ := s.length - 1
    let h : ℚ := q * m
    let i : ℕ := (⌊h⌋).toNat
    let lo := s.getD i 0
    let hi := s.getD (min (i + 1) m) 0
    lo + (h - i) * (hi - lo)

/-- Nodes of the directed graph: networkx `add_weighted_edges_from` adds
exactly the endpoint contracts of the edge list. -/
def nodesOfEdges (edges : List (String × String × ℕ)) : List String :=
  (edges.flatMap (fun e => [e.1, e.2.1])).dedup

/-- The networkx `in_degree_centrality` dict: each node's in-degree
divided by (node count − 1); every node of a graph with at most one node
gets 1. -/
def inDegreeCentralityDict (edges : List (String × String × ℕ)) :
    List (String × ℚ) :=
  let ns := nodesOfEdges edges
  if ns.length ≤ 1 then ns.map (fun v => (v, 1))
  else ns.map (fun v =>
    (v, (edges.countP (fun e => e.2.1 = v) : ℚ) / ((ns.length : ℚ) - 1)))

/-- The except-branch dict of the betweenness and closeness ladders in
`calculate_contract_centrality`: every node of the graph mapped to 0. -/
def zeroCentralityDict (edges : List (String × String × ℕ)) :
    List (String × ℚ) :=
  (nodesOfEdges edges).map (fun v => (v, 0))

/-- The try/except ladder for betweenness centrality: the attempted
networkx call is external, so its outcome is the `attempt` parameter; on
failure every node of the graph is assigned 0. -/
def betweennessComputed (edges : List (String × String × ℕ))
    (attempt : Option (List (String × ℚ))) : List (String × ℚ) :=
  attempt.getD (zeroCentralityDict edges)

/-- The try/except ladder for closeness centrality: identical in shape to
the betweenness ladder — on failure every node of the graph is assigned
0. -/
def closenessComputed (edges : List (String × String × ℕ))
    (attempt : Option (List (String × ℚ))) : List (String × ℚ) :=
  attempt.getD (zeroCentralityDict edges)

/-- The nested try/except ladder for eigenvector centrality: the
power-iteration attempt, then the numpy eigen-solve attempt, then the
in-degree-centrality dict. -/
def eigenvectorComputed (edges : List (String × String × ℕ))
    (powerAttempt numpyAttempt : Option (List (String × ℚ))) :
    List (String × ℚ) :=
  powerAttempt.getD (numpyAttempt.getD (inDegreeCentralityDict edges))

/-- The pandas idiom `features[c].map(dict).fillna(0)` applied to one
contract: the dict's value when the contract is a key, otherwise 0. -/
def mapFillna (d : List (String × ℚ)) (c : String) : ℚ :=
  (d.lookup c).getD 0

/-- One row of the per-contract feature table built by
`_features_from_logs_df` (and by the identical groupby blocks of the
training and inference paths). -/
structure FeatRow where
  contract : String
  txCount : ℕ
  minBlock : ℕ
  maxBlock : ℕ
  activitySpan : ℕ
deriving DecidableEq, Repr

/-- The per-contract feature table: transaction count, block range and
activity span per distinct contract of the batch. -/
def featuresOf (rows : List LogRow) : List FeatRow :=
  (contractsIn rows).map (fun c =>
    let bs := (rows.filter (·.contract = c)).map (·.block)
    let mn := bs.foldl Nat.min (bs.headD 0)
    let mx := bs.foldl Nat.max (bs.headD 0)
    { contract := c
      txCount := (rows.filter (·.contract = c)).length
      minBlock := mn
      maxBlock := mx
      activitySpan := mx - mn })

/-- The absolute-activity labeling step shared by `generate_training_data`
and `backtest_one_week`: given per-contract future transaction counts,
label 1 exactly the contracts whose count is at least the 0.9 quantile of
the counts. -/
def absoluteActivityLabels (liq : List (String × ℕ)) : List (String × ℕ) :=
  let thr := panQuantile (liq.map (fun p => (p.2 : ℚ))) (9/10)
  liq.map (fun p => (p.1, if thr ≤ (p.2 : ℚ) then 1 else 0))

/-- The fraction of contracts that carry label 1 — the quantity the claim
about labeling tightness speaks of (the code never materialises it). -/
def labeledFraction (labels : List (String × ℕ)) : ℚ :=
  ((labels.countP (fun p => p.2 = 1)) : ℚ) / (labels.length : ℚ)

/-- The `label_from_future` helper of `backtest_one_week`: pool segments
`dayIdx+1 .. dayIdx+3` (those below the fixed segment count 7), count
transactions per contract there, and apply the absolute-activity 0.9
quantile rule.  Empty when no future segment index exists or the pooled
window holds no rows. -/
def labelFromFuture (slices : List (List LogRow)) (dayIdx : ℕ) :
    List (String × ℕ) :=
  let futureIdxs := ([1, 2, 3].map (dayIdx + ·)).filter (· < 7)
  if futureIdxs.isEmpty then []
  else
    let fut := futureIdxs.flatMap (fun k => slices.getD k [])
    let liq := (contractsIn fut).map
      (fun c => (c, (fut.filter (·.contract = c)).length))
    if liq.isEmpty then []
    else absoluteActivityLabels liq

/-- The inner merge of a segment's feature table with its label table on
the contract key, as `backtest_one_week` builds its per-day training
pairs. -/
def mergedTable (slices : List (List LogRow)) (i : ℕ) :
    List (FeatRow × ℕ) :=
  (featuresOf (slices.getD i [])).filterMap
    (fun f => ((labelFromFuture slices i).lookup f.contract).map (f, ·))

/-- The per-cycle training parts of `backtest_one_week`: for each earlier
segment index `i < t`, its merged (feature, label) table, kept only when
the segment's features, labels and merge are all non-empty (the loop's
three skip conditions). -/
def trainingParts (slices : List (List LogRow)) (t : ℕ) :
    List (List (FeatRow × ℕ)) :=
  (List.range t).filterMap (fun i =>
    if (featuresOf (slices.getD i [])).isEmpty then none
    else if (labelFromFuture slices i).isEmpty then none
    else if (mergedTable slices i).isEmpty then none
    else some (mergedTable slices i))

/-- The pooled training set of one backtest cycle: the concatenation of
the kept per-segment parts. -/
def trainingFlat (slices : List (List LogRow)) (t : ℕ) :
    List (FeatRow × ℕ) :=
  (trainingParts slices t).flatten

/-- The training-side skip condition of one backtest cycle: some earlier
segment contributed a part. -/
def backtestTrainOk (slices : List (List LogRow)) (t : ℕ) : Bool :=
  !(trainingParts slices t).isEmpty

/-- The test-side skip condition of one backtest cycle: segment `t` has
feature rows and a non-empty label table. -/
def backtestTestOk (slices : List (List LogRow)) (t : ℕ) : Bool :=
  !(featuresOf (slices.getD t [])).isEmpty &&
    !(labelFromFuture slices t).isEmpty

/-- Both skip conditions of one backtest cycle pass: the cycle reaches
training and prediction. -/
def backtestQualifies (slices : List (List LogRow)) (t : ℕ) : Bool :=
  backtestTrainOk slices t && backtestTestOk slices t

/-- The binary labels of a cycle's pooled training set, in row order. -/
def trainLabels (slices : List (List LogRow)) (t : ℕ) : List ℕ :=
  (trainingFlat slices t).map (·.2)

/-- Whether a label list holds a single distinct class: the fitted
forest's `classes_` then has one element, `predict_proba` returns one
column, and the code's `predict_proba(Xt)[:, 1]` raises an IndexError. -/
def singleClass (ys : List ℕ) : Bool :=
  ys.dedup.length == 1

/-- A backtest cycle that reaches prediction and aborts the run there:
its pooled training labels are single-class, so the uncaught
`predict_proba(Xt)[:, 1]` IndexError propagates out of
`backtest_one_week`. -/
def backtestCrashes (slices : List (List LogRow)) (t : ℕ) : Bool :=
  backtestQualifies slices t && singleClass (trainLabels slices t)

/-- A backtest cycle that reaches prediction and completes, printing and
recording its Precision@K value. -/
def backtestRecords (slices : List (List LogRow)) (t : ℕ) : Bool :=
  backtestQualifies slices t && !singleClass (trainLabels slices t)

/-- One iteration of the backtest loop over the state (indices recorded
so far, run aborted?): once aborted nothing more happens; a cycle failing
a skip condition is skipped; a qualifying cycle with single-class pooled
training labels aborts the run at `predict_proba(Xt)[:, 1]`; otherwise
the cycle's index is recorded. -/
def backtestStep (slices : List (List LogRow)) (state : List ℕ × Bool)
    (t : ℕ) : List ℕ × Bool :=
  if state.2 then state
  else if !(backtestQualifies slices t) then state
  else if singleClass (trainLabels slices t) then (state.1, true)
  else (state.1 ++ [t], false)

/-- The backtest loop run over its first n indices in increasing order,
from the initial state (nothing recorded, not aborted). -/
def backtestRunAux (slices : List (List LogRow)) (n : ℕ) :
    List ℕ × Bool :=
  (List.range n).foldl (backtestStep slices) ([], false)

/-- The full backtest run of `backtest_one_week`: the loop ranges over
t = 0..3 only. -/
def backtestRun (slices : List (List LogRow)) : List ℕ × Bool :=
  backtestRunAux slices 4

/-- The segment indices for which `backtest_one_week` actually records a
Precision@K value before the run ends or aborts. -/
def backtestRecorded (slices : List (List LogRow)) : List ℕ :=
  (backtestRun slices).1

/-- Modelled from the spec: an index t is evaluable when at least one
future segment among t+1..t+3 is available (below the segment count 7 and
holding data) and at least one earlier segment provides usable
(feature, label) training pairs.  The code's loop bound is not part of
this spec-side condition. -/
def specEvaluableBacktest (slices : List (List LogRow)) (t : ℕ) : Bool :=
  (([1, 2, 3].map (t + ·)).any
      (fun k => decide (k < 7) && !(slices.getD k []).isEmpty)) &&
    ((List.range t).any (fun i => !(mergedTable slices i).isEmpty))

/-- The Precision@K evaluation of one backtest segment: the hit count of
the top-ranked contracts against the true-positive set, divided by
`max 1 K` exactly as the code divides by `max(1, len(top))`. -/
def precisionAtK (top : List String) (truth : List String) : ℚ :=
  ((top.countP (fun c => truth.contains c)) : ℚ) / ((max 1 top.length : ℕ) : ℚ)

/-- The growth-percentage formula of `generate_training_data_from_rolling`:
(future − current) / (current + 1) × 100, the +1 smoothing the code
comments as avoiding division by zero. -/
def volumeGrowthPct (current future : ℕ) : ℚ :=
  ((future : ℚ) - (current : ℚ)) / ((current : ℚ) + 1) * 100

/-- The growth-rate labeling of `generate_training_data_from_rolling`:
label 1 exactly the contracts whose growth percentage is at least the 0.8
quantile of the growth percentages.  Each entry is (contract, current 1D
volume, future volume). -/
def growthLabels (vol : List (String × ℕ × ℕ)) : List (String × ℕ) :=
  let thr := panQuantile (vol.map (fun p => volumeGrowthPct p.2.1 p.2.2)) (8/10)
  vol.map (fun p => (p.1, if thr ≤ volumeGrowthPct p.2.1 p.2.2 then 1 else 0))

/-- The default entry used to index growth tables positionally. -/
def volDefault : String × ℕ × ℕ := ("", 0, 0)

/-- The allow-list of token symbols hard-coded in `infer_top` and
`infer_top_multi_timeframe`. -/
def ALLOWED_TOKENS : List String :=
  ["USDE", "MSUSD", "USDC", "PYUSD", "SUSDE", "DAI", "MIM", "EUSD",
   "USD3", "DOLA", "SDAI", "FRAXBP", "USDT", "3CRV", "USDM", "USDS", "frxUSD"]

/-- The token-scanning loop of the post-filter: it accumulates the
contract's resolved symbols, those found on the allow-list, and the
all-tokens-valid flag, exactly as the Python loop does. -/
def poolTokenScan (symbols : List String) :
    List String × List String × Bool :=
  symbols.foldl
    (fun acc tok =>
      if tok ∈ ALLOWED_TOKENS then (acc.1 ++ [tok], acc.2.1 ++ [tok], acc.2.2)
      else (acc.1 ++ [tok], acc.2.1, false))
    ([], [], true)

/-- The post-filter decision for one contract: kept iff the valid flag
survived and every scanned symbol was found on the allow-list (the code's
final `all_tokens_valid and len(allowed) == len(symbols)` check). -/
def poolPassesFilter (symbols : List String) : Bool :=
  let scan := poolTokenScan symbols
  scan.2.2 && scan.2.1.length == scan.1.length

/-- The per-timeframe ensemble weights of `infer_top_multi_timeframe`. -/
def timeframeWeights : List (String × ℚ) :=
  [("1D", 4/10), ("3D", 35/100), ("1W", 2/10), ("3W", 5/100), ("1M", 5/100)]

/-- The weight applied to one timeframe's probabilities: the table value,
defaulting to 0.1 as `timeframe_weights.get(timeframe, 0.1)` does. -/
def weightOf (tf : String) : ℚ :=
  (timeframeWeights.lookup tf).getD (1/10)

/-- The combined ensemble score of one contract: the running
`weighted_probabilities` accumulation over the timeframes whose model
loaded, started from nothing (zero) and increased by weight × probability
per timeframe. -/
def combinedScore (timeframes : List String) (available : String → Bool)
    (probOf : String → String → ℚ) (c : String) : ℚ :=
  (timeframes.filter available).foldl
    (fun acc tf => acc + weightOf tf * probOf tf c) 0

/-- The day offset (from the start date) a walk-forward cycle trains on:
`walk_forward_continuous_learning` advances by `validation_days` per
cycle, so cycle k trains on offset k·validation_days. -/
def wfTrainOffset (k vdays : ℕ) : ℕ := k * vdays

/-- The day offset a walk-forward cycle validates on: `validation_days`
after its own training day. -/
def wfValidOffset (k vdays : ℕ) : ℕ := k * vdays + vdays

/-- Concrete log batch where contract c1 swaps t1 into t2 and contract c2
swaps t3 into t1. -/
def exLogsC1 : List LogRow :=
  [⟨"h1", "c1", "t1", "t2", 5⟩, ⟨"h2", "c2", "t3", "t1", 6⟩]

/-- Concrete log batch whose flow graph has the two nodes a, b and edges
both ways between them. -/
def exLogsC2 : List LogRow :=
  [⟨"h1", "a", "t1", "t1", 1⟩, ⟨"h2", "b", "t1", "t2", 2⟩]

/-- Concrete week of seven one-row segments, all activity on one
contract. -/
def exSlices7 : List (List LogRow) :=
  [[⟨"h0", "c", "t1", "t2", 100⟩],
   [⟨"h1", "c", "t1", "t2", 101⟩],
   [⟨"h2", "c", "t1", "t2", 102⟩],
   [⟨"h3", "c", "t1", "t2", 103⟩],
   [⟨"h4", "c", "t1", "t2", 104⟩],
   [⟨"h5", "c", "t1", "t2", 105⟩],
   [⟨"h6", "c", "t1", "t2", 106⟩]]

/-- The training row day 1 of `exSlices7` contributes at backtest cycle
t = 2. -/
def exRowC3 : FeatRow × ℕ := (⟨"c", 1, 101, 101, 0⟩, 1)

/-- Concrete week of seven four-row segments with two contracts of
unequal activity (one row on contract c, three on contract d per
segment): the merged tables carry BOTH label classes (the low-activity
contract c gets label 0, the high-activity contract d gets label 1), so
a backtest cycle on it reaches prediction without the single-class
crash. -/
def exSlicesB : List (List LogRow) :=
  [[⟨"ac", "c", "t1", "t2", 100⟩, ⟨"ad1", "d", "t3", "t4", 100⟩,
    ⟨"ad2", "d", "t3", "t4", 100⟩, ⟨"ad3", "d", "t3", "t4", 100⟩],
[⟨"bc", "c", "t1", "t2", 101⟩, ⟨"bd1", "d", "t3", "t4", 101⟩,
    ⟨"bd2", "d", "t3", "t4", 101⟩, ⟨"bd3", "d", "t3", "t4", 101⟩],
[⟨"ec", "c", "t1", "t2", 102⟩, ⟨"ed1", "d", "t3", "t4", 102⟩,
    ⟨"ed2", "d", "t3", "t4", 102⟩, ⟨"ed3", "d", "t3", "t4", 102⟩],
[⟨"fc", "c", "t1", "t2", 103⟩, ⟨"fd1", "d", "t3", "t4", 103⟩,
    ⟨"fd2", "d", "t3", "t4", 103⟩, ⟨"fd3", "d", "t3", "t4", 103⟩],
[⟨"gc", "c", "t1", "t2", 104⟩, ⟨"gd1", "d", "t3", "t4", 104⟩,
    ⟨"gd2", "d", "t3", "t4", 104⟩, ⟨"gd3", "d", "t3", "t4", 104⟩],
[⟨"ic", "c", "t1", "t2", 105⟩, ⟨"id1", "d", "t3", "t4", 105⟩,
    ⟨"id2", "d", "t3", "t4", 105⟩, ⟨"id3", "d", "t3", "t4", 105⟩],
[⟨"jc", "c", "t1", "t2", 106⟩, ⟨"jd1", "d", "t3", "t4", 106⟩,
    ⟨"jd2", "d", "t3", "t4", 106⟩, ⟨"jd3", "d", "t3", "t4", 106⟩]]

/-! ## Helper lemmas -/

theorem flowEdges_mem_iff (logs : List LogRow) (a b : String) (w : ℕ) :
    (a, b, w) ∈ flowEdges logs ↔
      a ∈ contractsIn logs ∧ b ∈ contractsIn logs ∧ a ≠ b ∧
        sharedTokens logs a b ≠ [] ∧ w = (sharedTokens logs a b).length := by
  constructor
  · intro h
    simp only [flowEdges, List.mem_flatMap, List.mem_filterMap] at h
    obtain ⟨x, hx, y, hy, hxy⟩ := h
    by_cases h1 : x = y
    · rw [if_pos h1] at hxy; exact absurd hxy (by simp)
    · rw [if_neg h1] at hxy
      by_cases h2 : (sharedTokens logs x y).isEmpty
      · rw [if_pos h2] at hxy; exact absurd hxy (by simp)
      · rw [if_neg h2] at hxy
        simp only [Option.some.injEq, Prod.mk.injEq] at hxy
        obtain ⟨rfl, rfl, hw⟩ := hxy
        refine ⟨hx, hy, h1, ?_, hw.symm⟩
        exact fun he => h2 (by rw [he]; rfl)
  · rintro ⟨ha, hb, hne, hsh, hw⟩
    simp only [flowEdges, List.mem_flatMap, List.mem_filterMap]
    refine ⟨a, ha, b, hb, ?_⟩
    rw [if_neg hne, if_neg (fun hemp => hsh (List.isEmpty_iff.mp hemp))]
    simp [hw]

theorem mapFillna_zeroDict (l : List String) (c : String) :
    mapFillna (l.map (fun v => (v, (0 : ℚ)))) c = 0 := by
  induction l with
  | nil => rfl
  | cons a l ih =>
    by_cases h : c = a
    · subst h; simp [mapFillna, List.lookup]
    · have hb : (c == a) = false := beq_eq_false_iff_ne.mpr h
      simpa [mapFillna, List.lookup, hb] using ih

/-! ## Claim theorems -/

/-- C1 (amended): in the token-flow graph of
`calculate_contract_centrality`, a directed edge A→B with weight w exists
iff A and B are distinct contracts of the batch whose POOLED token sets
(inputs and outputs together) intersect, with w the size of that
intersection; no self-loop is ever created.  (The spec's rule
outputs(A) ∩ inputs(B) is refuted by `C1_counterexample`.) -/
theorem C1_edge_rule (logs : List LogRow) (a b : String) (w : ℕ) :
    ((a, b, w) ∈ flowEdges logs ↔
      a ∈ contractsIn logs ∧ b ∈ contractsIn logs ∧ a ≠ b ∧
        sharedTokens logs a b ≠ [] ∧ w = (sharedTokens logs a b).length) ∧
    (a, a, w) ∉ flowEdges logs :=
  ⟨flowEdges_mem_iff logs a b w,
   fun h => ((flowEdges_mem_iff logs a a w).mp h).2.2.1 rfl⟩

/-- C1 counterexample: contract c1 swaps t1→t2 and contract c2 swaps
t3→t1, so the tokens c1 outputs ({t2}) and the tokens c2 inputs ({t3})
are disjoint and the claimed rule creates no edge c1→c2 — yet the code
builds that edge (weight 1, via the pooled token t1). -/
theorem C1_counterexample :
    ("c1", "c2", 1) ∈ flowEdges exLogsC1 ∧
    (specOutputTokens exLogsC1 "c1").filter
      (· ∈ specInputTokens exLogsC1 "c2") = [] := by
  decide

/-- C2 (amended): the fallback ladders of `calculate_contract_centrality`,
per metric.  Betweenness and closeness have TWO tiers: the exact weighted
call, and on failure the all-zeros dict over the graph's nodes (every
contract's substituted value is 0, not its in-degree centrality).
Eigenvector alone has THREE tiers: the power-iteration attempt, then the
numpy eigen-solve, then the in-degree-centrality dict.  Every ladder is a
total function of its attempts' outcomes, so no failure propagates. -/
theorem C2_fallback_ladders (edges : List (String × String × ℕ))
    (f g : List (String × ℚ)) (v : String) :
    betweennessComputed edges none = zeroCentralityDict edges ∧
    closenessComputed edges none = zeroCentralityDict edges ∧
    mapFillna (betweennessComputed edges none) v = 0 ∧
    mapFillna (closenessComputed edges none) v = 0 ∧
    betweennessComputed edges (some f) = f ∧
    closenessComputed edges (some f) = f ∧
    eigenvectorComputed edges (some f) (some g) = f ∧
    eigenvectorComputed edges (some f) none = f ∧
    eigenvectorComputed edges none (some g) = g ∧
    eigenvectorComputed edges none none = inDegreeCentralityDict edges :=
  ⟨rfl, rfl, mapFillna_zeroDict _ v, mapFillna_zeroDict _ v,
   rfl, rfl, rfl, rfl, rfl, rfl⟩

/-- C2 counterexample: on the two-node graph of `exLogsC2`, when the
betweenness attempt fails the code substitutes 0 for node b, while the
in-degree centrality the claim says is substituted for a failed metric is
1 there — so the claimed per-metric three-tier fallback (ending in
in-degree centrality) does not govern betweenness. -/
theorem C2_counterexample :
    mapFillna (betweennessComputed (flowEdges exLogsC2) none) "b" = 0 ∧
    mapFillna (inDegreeCentralityDict (flowEdges exLogsC2)) "b" = 1 ∧
    ((0 : ℚ) ≠ 1) := by
  have hedges : flowEdges exLogsC2 = [("a", "b", 1), ("b", "a", 1)] := by
    decide
  have hnodes : nodesOfEdges [(("a" : String), ("b" : String), (1 : ℕ)),
      ("b", "a", 1)] = ["b", "a"] := by decide
  refine ⟨?_, ?_, by norm_num⟩
  · norm_num [mapFillna, betweennessComputed, zeroCentralityDict, hedges,
      hnodes, List.lookup]
  · rw [hedges]
    norm_num [mapFillna, inDegreeCentralityDict, hnodes, List.lookup]
    decide

/-- Every row of a backtest cycle's pooled training set comes from the
merged table of some strictly earlier segment. -/
theorem trainingFlat_mem_earlier (slices : List (List LogRow)) (t : ℕ)
    (row : FeatRow × ℕ) (h : row ∈ trainingFlat slices t) :
    ∃ i, i < t ∧ row ∈ mergedTable slices i := by
  obtain ⟨part, hpart, hrow⟩ := List.mem_flatten.mp h
  simp only [trainingParts, List.mem_filterMap, List.mem_range] at hpart
  obtain ⟨i, hi, hfi⟩ := hpart
  by_cases e1 : (featuresOf (slices.getD i [])).isEmpty
  · rw [if_pos e1] at hfi; cases hfi
  · rw [if_neg e1] at hfi
    by_cases e2 : (labelFromFuture slices i).isEmpty
    · rw [if_pos e2] at hfi; cases hfi
    · rw [if_neg e2] at hfi
      by_cases e3 : (mergedTable slices i).isEmpty
      · rw [if_pos e3] at hfi; cases hfi
      · rw [if_neg e3] at hfi
        obtain rfl := Option.some.inj hfi
        exact ⟨i, hi, hrow⟩

/-- C3: no future leakage.  In `backtest_one_week`, every (feature, label)
row of cycle t's pooled training set comes from the merged table of a
segment index strictly below t (the cycle's test segment); and in
`walk_forward_continuous_learning`, every cycle's training-day offset is
strictly below its validation-day offset whenever the per-cycle advance
`validation_days` is at least its default 1. -/
theorem C3_no_future_leakage :
    (∀ (slices : List (List LogRow)) (t : ℕ) (row : FeatRow × ℕ),
        row ∈ trainingFlat slices t → ∃ i, i < t ∧ row ∈ mergedTable slices i) ∧
    (∀ k vdays : ℕ, 1 ≤ vdays → wfTrainOffset k vdays < wfValidOffset k vdays) :=
  ⟨trainingFlat_mem_earlier,
   fun k vdays h => by simp only [wfTrainOffset, wfValidOffset]; omega⟩

/-- C3 witness: at backtest cycle t = 2 of the concrete week, the training
row contributed by segment 1 indeed comes from a segment index below 2;
and walk-forward cycle 0 with the default validation_days = 1 trains on
offset 0 and validates on offset 1. -/
theorem C3_witness :
    (∃ i, i < 2 ∧ exRowC3 ∈ mergedTable exSlices7 i) ∧
    wfTrainOffset 0 1 < wfValidOffset 0 1 := by
  have hm : mergedTable exSlices7 1 = [exRowC3] := by
    norm_num [mergedTable, featuresOf, labelFromFuture, absoluteActivityLabels,
      panQuantile, contractsIn, exSlices7, exRowC3, List.insertionSort,
      List.orderedInsert, List.lookup]
    decide
  have hflat : exRowC3 ∈ trainingFlat exSlices7 2 := by
    have hp : mergedTable exSlices7 1 ∈ trainingParts exSlices7 2 := by
      simp only [trainingParts, List.mem_filterMap, List.mem_range]
      refine ⟨1, by norm_num, ?_⟩
      rw [if_neg (by decide), if_neg (by decide), if_neg (by rw [hm]; decide)]
    have hmem : exRowC3 ∈ mergedTable exSlices7 1 := by
      rw [hm]; exact List.mem_singleton.mpr rfl
    exact List.mem_flatten.mpr ⟨_, hp, hmem⟩
  exact ⟨C3_no_future_leakage.1 exSlices7 2 exRowC3 hflat,
    C3_no_future_leakage.2 0 1 (by norm_num)⟩

/-- The interpolated quantile of a non-empty list never exceeds all of the
list's members: some member is at least the quantile. -/
theorem panQuantile_le_exists (xs : List ℚ) (q : ℚ) (hq0 : 0 ≤ q)
    (hq1 : q ≤ 1) (hne : xs ≠ []) : ∃ x ∈ xs, panQuantile xs q ≤ x := by
  have hperm : (xs.insertionSort (· ≤ ·)).Perm xs := List.perm_insertionSort _ xs
  have hsort : (xs.insertionSort (· ≤ ·)).Sorted (· ≤ ·) :=
    List.sorted_insertionSort _ xs
  have hpos : 0 < (xs.insertionSort (· ≤ ·)).length := by
    rw [hperm.length_eq]; exact List.length_pos.mpr hne
  set s := xs.insertionSort (· ≤ ·) with hs
  set m := s.length - 1 with hm
  set h : ℚ := q * m with hh
  have hh0 : 0 ≤ h := mul_nonneg hq0 (by positivity)
  have hhm : h ≤ (m : ℚ) := by
    calc q * (m : ℚ) ≤ 1 * m := mul_le_mul_of_nonneg_right hq1 (by positivity)
    _ = m := one_mul _
  have hfl0 : 0 ≤ ⌊h⌋ := Int.floor_nonneg.mpr hh0
  set i := (⌊h⌋).toNat with hi
  have hicast : (i : ℚ) = ((⌊h⌋ : ℤ) : ℚ) := by
    rw [hi]
    exact_mod_cast congrArg (fun z : ℤ => (z : ℚ)) (Int.toNat_of_nonneg hfl0)
  have hile : i ≤ m := by
    have h1 : ⌊h⌋ ≤ (m : ℤ) := by
      have h2 := Int.floor_le_floor hhm
      rwa [Int.floor_natCast] at h2
    omega
  have hlt : i < s.length := by omega
  have hlt2 : min (i + 1) m < s.length := by omega
  have hfle : (i : ℚ) ≤ h := by rw [hicast]; exact Int.floor_le h
  have hflt : h - (i : ℚ) ≤ 1 := by
    have h3 := Int.lt_floor_add_one h
    rw [← hicast] at h3
    linarith
  have hlo : s.getD i 0 = s.get ⟨i, hlt⟩ := List.getD_eq_getElem s 0 hlt
  have hhi2 : s.getD (min (i + 1) m) 0 = s.get ⟨min (i + 1) m, hlt2⟩ :=
    List.getD_eq_getElem s 0 hlt2
  have hlohi : s.get ⟨i, hlt⟩ ≤ s.get ⟨min (i + 1) m, hlt2⟩ :=
    hsort.rel_get_of_le (by simp [Fin.mk_le_mk]; omega)
  have hmem : s.get ⟨min (i + 1) m, hlt2⟩ ∈ xs :=
    hperm.subset (s.get_mem _ hlt2)
  refine ⟨s.get ⟨min (i + 1) m, hlt2⟩, hmem, ?_⟩
  have hval : panQuantile xs q =
      s.getD i 0 + (h - i) * (s.getD (min (i + 1) m) 0 - s.getD i 0) := by
    simp only [panQuantile]
    rw [← hs]
    rw [if_neg (show ¬(s.length = 0) by omega)]
  rw [hval, hlo, hhi2]
  have hd : 0 ≤ s.get ⟨min (i + 1) m, hlt2⟩ - s.get ⟨i, hlt⟩ := by linarith
  have hstep : (h - i) * (s.get ⟨min (i + 1) m, hlt2⟩ - s.get ⟨i, hlt⟩) ≤
      s.get ⟨min (i + 1) m, hlt2⟩ - s.get ⟨i, hlt⟩ :=
    mul_le_of_le_one_left hd hflt
  linarith

/-- C4 (amended): under absolute-activity labeling the labeled-1 fraction
of a non-empty window is a well-defined value in [0, 1] and at least one
contract (one whose count reaches the 0.9 quantile) is always labeled 1 —
but the fraction is NOT bounded by (1 − 0.90) plus a small tolerance:
with ties at the threshold every tied contract is labeled 1, and
`C4_counterexample` reaches fraction 1. -/
theorem C4_amended (liq : List (String × ℕ)) (hne : liq ≠ []) :
    0 ≤ labeledFraction (absoluteActivityLabels liq) ∧
    labeledFraction (absoluteActivityLabels liq) ≤ 1 ∧
    ∃ p ∈ absoluteActivityLabels liq, p.2 = 1 := by
  have hlen : (absoluteActivityLabels liq).length = liq.length := by
    simp [absoluteActivityLabels]
  have hl0 : 0 < liq.length := List.length_pos.mpr hne
  have hlenpos : (0 : ℚ) < ((absoluteActivityLabels liq).length : ℚ) := by
    rw [hlen]; exact_mod_cast hl0
  refine ⟨?_, ?_, ?_⟩
  · exact div_nonneg (by positivity) (by positivity)
  · rw [labeledFraction, div_le_one hlenpos]
    exact_mod_cast List.countP_le_length _
  · obtain ⟨x, hx, hthr⟩ := panQuantile_le_exists
      (liq.map (fun p => (p.2 : ℚ))) (9/10) (by norm_num) (by norm_num)
      (by simpa using hne)
    obtain ⟨p, hp, rfl⟩ := List.mem_map.mp hx
    refine ⟨(p.1, 1), ?_, rfl⟩
    simp only [absoluteActivityLabels]
    exact List.mem_map.mpr ⟨p, hp, by rw [if_pos hthr]⟩

/-- C4 counterexample: three contracts all with future count 5 tie at the
0.9 quantile (which is 5), so all of them are labeled 1 and the labeled
fraction is 1 — far above the claimed bound (1 − 0.90) even granting a
tolerance as large as 0.5. -/
theorem C4_counterexample :
    labeledFraction (absoluteActivityLabels [("a", 5), ("b", 5), ("c", 5)]) = 1 ∧
    ((1 : ℚ)/10 + 1/2 < 1) := by
  constructor
  · norm_num [labeledFraction, absoluteActivityLabels, panQuantile,
      List.insertionSort, List.orderedInsert, List.countP, List.countP.go]
  · norm_num

/-- C4 witness: the amended claim instantiated at a concrete two-contract
window. -/
theorem C4_witness :
    0 ≤ labeledFraction (absoluteActivityLabels [("a", 1), ("b", 2)]) ∧
    labeledFraction (absoluteActivityLabels [("a", 1), ("b", 2)]) ≤ 1 ∧
    ∃ p ∈ absoluteActivityLabels [("a", 1), ("b", 2)], p.2 = 1 :=
  C4_amended [("a", 1), ("b", 2)] (by decide)

/-- The token-scanning fold, from an arbitrary accumulator: it appends the
scanned symbols, keeps exactly the allowed ones, and conjoins the valid
flag with all-allowed. -/
theorem poolTokenScan_foldl (l : List String) (cs af : List String)
    (v : Bool) :
    l.foldl
      (fun acc tok =>
        if tok ∈ ALLOWED_TOKENS then (acc.1 ++ [tok], acc.2.1 ++ [tok], acc.2.2)
        else (acc.1 ++ [tok], acc.2.1, false))
      (cs, af, v) =
    (cs ++ l, af ++ l.filter (fun t => t ∈ ALLOWED_TOKENS),
      v && l.all (fun t => t ∈ ALLOWED_TOKENS)) := by
  induction l generalizing cs af v with
  | nil => simp
  | cons a l ih =>
    simp only [List.foldl_cons]
    by_cases h : a ∈ ALLOWED_TOKENS
    · rw [if_pos h, ih]
      simp [h, List.filter_cons, List.all_cons]
    · rw [if_neg h, ih]
      simp [h, List.filter_cons, List.all_cons]

/-- C5: the allow-list post-filter is all-or-nothing per contract: a
contract passes iff EVERY one of its observed tokens resolves to an
allow-list symbol; in particular a contract with observed tokens
{USDC, UNKNOWN} is excluded even though USDC itself is allowed. -/
theorem C5_allow_list_filter (symbols : List String) :
    (poolPassesFilter symbols = true ↔ ∀ s ∈ symbols, s ∈ ALLOWED_TOKENS) ∧
    poolPassesFilter ["USDC", "UNKNOWN"] = false ∧
    "USDC" ∈ ALLOWED_TOKENS := by
  refine ⟨?_, by decide, by decide⟩
  rw [poolPassesFilter, poolTokenScan, poolTokenScan_foldl]
  constructor
  · intro h
    simp only [List.nil_append, Bool.true_and, Bool.and_eq_true,
      List.all_eq_true, decide_eq_true_eq] at h
    exact h.1
  · intro h
    have hall : symbols.all (fun t => t ∈ ALLOWED_TOKENS) = true := by
      simp only [List.all_eq_true, decide_eq_true_eq]
      exact h
    have hfil : symbols.filter (fun t => t ∈ ALLOWED_TOKENS) = symbols :=
      List.filter_eq_self.mpr (by
        simpa only [List.all_eq_true] using hall)
    simp [hall, hfil]

/-- C5 witness: a contract whose observed tokens are exactly
{USDC, DAI} passes the post-filter. -/
theorem C5_witness : poolPassesFilter ["USDC", "DAI"] = true :=
  (C5_allow_list_filter ["USDC", "DAI"]).1.mpr (by decide)

/-- A segment with a non-empty merged (feature, label) table has feature
rows. -/
theorem mergedTable_ne_nil_features (slices : List (List LogRow)) (i : ℕ)
    (h : mergedTable slices i ≠ []) : featuresOf (slices.getD i []) ≠ [] := by
  intro hf
  apply h
  rw [mergedTable, hf]
  rfl

/-- A segment with a non-empty merged (feature, label) table has a
non-empty label table. -/
theorem mergedTable_ne_nil_labels (slices : List (List LogRow)) (i : ℕ)
    (h : mergedTable slices i ≠ []) : labelFromFuture slices i ≠ [] := by
  intro hl
  apply h
  rw [mergedTable, hl]
  simp [List.lookup]

/-- A backtest cycle has a training part exactly when some strictly
earlier segment has a non-empty merged table. -/
theorem trainingParts_ne_nil_iff (slices : List (List LogRow)) (t : ℕ) :
    trainingParts slices t ≠ [] ↔ ∃ i, i < t ∧ mergedTable slices i ≠ [] := by
  rw [trainingParts, Ne, List.filterMap_eq_nil_iff]
  push_neg
  constructor
  · rintro ⟨i, hi, hne⟩
    refine ⟨i, List.mem_range.mp hi, ?_⟩
    intro hmerged
    apply hne
    by_cases e1 : (featuresOf (slices.getD i [])).isEmpty
    · rw [if_pos e1]
    · rw [if_neg e1]
      by_cases e2 : (labelFromFuture slices i).isEmpty
      · rw [if_pos e2]
      · rw [if_neg e2, if_pos (by rw [hmerged]; rfl)]
  · rintro ⟨i, hi, hne⟩
    refine ⟨i, List.mem_range.mpr hi, ?_⟩
    rw [if_neg (fun e => mergedTable_ne_nil_features slices i hne
          (List.isEmpty_iff.mp e)),
      if_neg (fun e => mergedTable_ne_nil_labels slices i hne
          (List.isEmpty_iff.mp e)),
      if_neg (fun e => hne (List.isEmpty_iff.mp e))]
    simp

/-- The backtest run over its first n cycles: the abort flag is set iff
some processed cycle crashed at prediction, and an index is recorded iff
it is below n, its cycle records, and no earlier cycle crashed. -/
theorem backtestRunAux_spec (slices : List (List LogRow)) (n : ℕ) :
    ((backtestRunAux slices n).2 = true ↔
      ∃ u, u < n ∧ backtestCrashes slices u = true) ∧
    (∀ t, t ∈ (backtestRunAux slices n).1 ↔
      t < n ∧ backtestRecords slices t = true ∧
        ∀ u, u < t → backtestCrashes slices u = false) := by
  induction n with
  | zero =>
    constructor
    · simp [backtestRunAux]
    · intro t; simp [backtestRunAux]
  | succ n ih =>
    obtain ⟨ihf, ihm⟩ := ih
    have hstep : backtestRunAux slices (n + 1) =
        backtestStep slices (backtestRunAux slices n) n := by
      rw [backtestRunAux, backtestRunAux, List.range_succ, List.foldl_append,
        List.foldl_cons, List.foldl_nil]
    by_cases hc : (backtestRunAux slices n).2 = true
    · have hs : backtestStep slices (backtestRunAux slices n) n =
          backtestRunAux slices n := by rw [backtestStep, if_pos hc]
      rw [hstep, hs]
      obtain ⟨u, hu, hcr⟩ := ihf.mp hc
      refine ⟨⟨fun _ => ⟨u, by omega, hcr⟩, fun _ => hc⟩, fun t => ?_⟩
      rw [ihm t]
      constructor
      · rintro ⟨h1, h2, h3⟩; exact ⟨by omega, h2, h3⟩
      · rintro ⟨h1, h2, h3⟩
        rcases eq_or_lt_of_le (Nat.lt_succ_iff.mp h1) with rfl | h
        · exact absurd hcr (by simp [h3 u hu])
        · exact ⟨h, h2, h3⟩
    · have hflag : (backtestRunAux slices n).2 = false := by
        cases hb : (backtestRunAux slices n).2
        · rfl
        · exact absurd hb hc
      have hnone : ∀ u, u < n → backtestCrashes slices u = false := by
        intro u hu
        cases hcu : backtestCrashes slices u
        · rfl
        · exact absurd (ihf.mpr ⟨u, hu, hcu⟩) hc
      by_cases hq : backtestQualifies slices n = true
      · by_cases hsing : singleClass (trainLabels slices n) = true
        · have hs : backtestStep slices (backtestRunAux slices n) n =
              ((backtestRunAux slices n).1, true) := by
            rw [backtestStep, if_neg (by rw [hflag]; simp),
              if_neg (by rw [hq]; simp), if_pos hsing]
          rw [hstep, hs]
          have hcrn : backtestCrashes slices n = true := by
            rw [backtestCrashes, hq, hsing]; rfl
          constructor
          · exact ⟨fun _ => ⟨n, by omega, hcrn⟩, fun _ => rfl⟩
          · intro t
            show t ∈ (backtestRunAux slices n).1 ↔ _
            rw [ihm t]
            constructor
            · rintro ⟨h1, h2, h3⟩; exact ⟨by omega, h2, h3⟩
            · rintro ⟨h1, h2, h3⟩
              rcases eq_or_lt_of_le (Nat.lt_succ_iff.mp h1) with rfl | h
              · exfalso
                rw [backtestRecords, hq, hsing] at h2
                simp at h2
              · exact ⟨h, h2, h3⟩
        · have hsingf : singleClass (trainLabels slices n) = false := by
            cases hb : singleClass (trainLabels slices n)
            · rfl
            · exact absurd hb hsing
          have hs : backtestStep slices (backtestRunAux slices n) n =
              ((backtestRunAux slices n).1 ++ [n], false) := by
            rw [backtestStep, if_neg (by rw [hflag]; simp),
              if_neg (by rw [hq]; simp), if_neg (by rw [hsingf]; simp)]
          rw [hstep, hs]
          have hcrn : backtestCrashes slices n = false := by
            rw [backtestCrashes, hsingf]; simp
          have hrecn : backtestRecords slices n = true := by
            rw [backtestRecords, hq, hsingf]; rfl
          constructor
          · constructor
            · intro h; simp at h
            · rintro ⟨u, hu, hcu⟩
              exfalso
              rcases eq_or_lt_of_le (Nat.lt_succ_iff.mp hu) with rfl | h
              · rw [hcrn] at hcu; cases hcu
              · rw [hnone u h] at hcu; cases hcu
          · intro t
            show t ∈ (backtestRunAux slices n).1 ++ [n] ↔ _
            rw [List.mem_append, List.mem_singleton, ihm t]
            constructor
            · rintro (⟨h1, h2, h3⟩ | rfl)
              · exact ⟨by omega, h2, h3⟩
              · exact ⟨by omega, hrecn, hnone⟩
            · rintro ⟨h1, h2, h3⟩
              rcases eq_or_lt_of_le (Nat.lt_succ_iff.mp h1) with rfl | h
              · exact Or.inr rfl
              · exact Or.inl ⟨h, h2, h3⟩
      · have hqf : backtestQualifies slices n = false := by
          cases hb : backtestQualifies slices n
          · rfl
          · exact absurd hb hq
        have hs : backtestStep slices (backtestRunAux slices n) n =
            backtestRunAux slices n := by
          rw [backtestStep, if_neg (by rw [hflag]; simp),
            if_pos (by rw [hqf]; rfl)]
        rw [hstep, hs]
        have hcrn : backtestCrashes slices n = false := by
          rw [backtestCrashes, hqf]; rfl
        have hrecn : backtestRecords slices n = false := by
          rw [backtestRecords, hqf]; rfl
        constructor
        · constructor
          · intro h; exact absurd h (by rw [hflag]; simp)
          · rintro ⟨u, hu, hcu⟩
            exfalso
            rcases eq_or_lt_of_le (Nat.lt_succ_iff.mp hu) with rfl | h
            · rw [hcrn] at hcu; cases hcu
            · rw [hnone u h] at hcu; cases hcu
        · intro t
          rw [ihm t]
          constructor
          · rintro ⟨h1, h2, h3⟩; exact ⟨by omega, h2, h3⟩
          · rintro ⟨h1, h2, h3⟩
            rcases eq_or_lt_of_le (Nat.lt_succ_iff.mp h1) with rfl | h
            · rw [hrecn] at h2; cases h2
            · exact ⟨h, h2, h3⟩

/-- A backtest cycle records iff its training side has a usable earlier
merged table, its test side has feature rows and labels, and its pooled
training labels hold both classes. -/
theorem backtestRecords_true_iff (slices : List (List LogRow)) (t : ℕ) :
    backtestRecords slices t = true ↔
      (∃ i, i < t ∧ mergedTable slices i ≠ []) ∧
        featuresOf (slices.getD t []) ≠ [] ∧
        labelFromFuture slices t ≠ [] ∧
        singleClass (trainLabels slices t) = false := by
  rw [backtestRecords, backtestQualifies, backtestTrainOk, backtestTestOk]
  simp only [Bool.and_eq_true, Bool.not_eq_true', List.isEmpty_eq_false]
  rw [trainingParts_ne_nil_iff]
  tauto

/-- C6 (amended): `backtest_one_week` records a Precision@K value exactly
for the indices t BELOW THE LOOP BOUND 4 that have a strictly earlier
segment with a usable merged (feature, label) table, feature rows and a
non-empty label table at t, pooled training labels holding BOTH classes,
and no earlier qualifying cycle with single-class pooled training labels
— such a cycle's uncaught `predict_proba(Xt)[:, 1]` IndexError aborts the
whole run, so every later index produces nothing.  Skipped indices
contribute nothing, never zero.  (The claim's condition — any index with
a future segment among t+1..t+3 and training history — is refuted by
`C6_counterexample`.) -/
theorem C6_recorded_indices (slices : List (List LogRow)) (t : ℕ) :
    t ∈ backtestRecorded slices ↔
      t < 4 ∧ (∃ i, i < t ∧ mergedTable slices i ≠ []) ∧
        featuresOf (slices.getD t []) ≠ [] ∧
        labelFromFuture slices t ≠ [] ∧
        singleClass (trainLabels slices t) = false ∧
        ∀ u, u < t → backtestCrashes slices u = false := by
  rw [backtestRecorded, backtestRun]
  rw [(backtestRunAux_spec slices 4).2 t, backtestRecords_true_iff]
  tauto

/-- C6 counterexample: in the concrete week `exSlices7`, indices 2 and 4
are evaluable per the claim (future segments with data, earlier usable
training pairs) — yet cycle 1 qualifies with the single-class pooled
training labels [1], so the real run aborts at `predict_proba(Xt)[:, 1]`
and `backtest_one_week` records NO Precision@K value at all, for 2 or any
other index (and index 4 lies beyond the loop bound besides). -/
theorem C6_counterexample :
    specEvaluableBacktest exSlices7 2 = true ∧
    specEvaluableBacktest exSlices7 4 = true ∧
    backtestCrashes exSlices7 1 = true ∧
    backtestRecorded exSlices7 = [] := by
  have hm0 : mergedTable exSlices7 0 = [(⟨"c", 1, 100, 100, 0⟩, 1)] := by
    norm_num [mergedTable, featuresOf, labelFromFuture, absoluteActivityLabels,
      panQuantile, contractsIn, exSlices7, List.insertionSort,
      List.orderedInsert, List.lookup]
    decide
  have hp1 : trainingParts exSlices7 1 = [mergedTable exSlices7 0] := by
    have hr : List.range 1 = [0] := rfl
    rw [trainingParts, hr]
    simp only [List.filterMap_cons, List.filterMap_nil]
    rw [if_neg (by decide), if_neg (by decide), if_neg (by rw [hm0]; decide)]
  have hlab : trainLabels exSlices7 1 = [1] := by
    rw [trainLabels, trainingFlat, hp1]
    simp [hm0]
  have hsing : singleClass (trainLabels exSlices7 1) = true := by
    rw [hlab]; decide
  have hcrash1 : backtestCrashes exSlices7 1 = true := by
    rw [backtestCrashes, show backtestQualifies exSlices7 1 = true from
      by decide, hsing]
    rfl
  have s0 : backtestStep exSlices7 ([], false) 0 = ([], false) := by
    rw [backtestStep, if_neg (by decide), if_pos (by decide)]
  have s1 : backtestStep exSlices7 ([], false) 1 = ([], true) := by
    rw [backtestStep, if_neg (by decide),
      if_neg (by rw [show backtestQualifies exSlices7 1 = true from
        by decide]; simp),
      if_pos hsing]
  have sc : ∀ u, backtestStep exSlices7 ([], true) u = ([], true) := by
    intro u; rw [backtestStep, if_pos rfl]
  have hrun : backtestRecorded exSlices7 = [] := by
    rw [backtestRecorded, backtestRun, backtestRunAux,
      show List.range 4 = [0, 1, 2, 3] from rfl]
    simp only [List.foldl_cons, List.foldl_nil]
    rw [s0, s1, sc 2, sc 3]
  exact ⟨by decide, by decide, hcrash1, hrun⟩

/-- C6 witness: on the two-contract week `exSlicesB` the pooled training
labels at cycle 1 hold both classes, no earlier cycle crashes, and index
1 is recorded, as the amended characterisation requires. -/
theorem C6_witness : 1 ∈ backtestRecorded exSlicesB := by
  have hfutlab : labelFromFuture exSlicesB 0 =
      absoluteActivityLabels [("c", 3), ("d", 9)] := by
    simp only [labelFromFuture]
    rw [if_neg (by decide), if_neg (by decide)]
    congr 1
  have hquant : absoluteActivityLabels [("c", 3), ("d", 9)] =
      [("c", 0), ("d", 1)] := by
    norm_num [absoluteActivityLabels, panQuantile, List.insertionSort,
      List.orderedInsert]
  have hfeat : featuresOf (exSlicesB.getD 0 []) =
      [⟨"c", 1, 100, 100, 0⟩, ⟨"d", 3, 100, 100, 0⟩] := by decide
  have hm0 : mergedTable exSlicesB 0 =
      [(⟨"c", 1, 100, 100, 0⟩, 0), (⟨"d", 3, 100, 100, 0⟩, 1)] := by
    rw [mergedTable, hfeat, hfutlab, hquant]
    decide
  have hp1 : trainingParts exSlicesB 1 = [mergedTable exSlicesB 0] := by
    have hr : List.range 1 = [0] := rfl
    rw [trainingParts, hr]
    simp only [List.filterMap_cons, List.filterMap_nil]
    rw [if_neg (by decide), if_neg (by decide), if_neg (by rw [hm0]; decide)]
  have hlab : trainLabels exSlicesB 1 = [0, 1] := by
    rw [trainLabels, trainingFlat, hp1]
    simp [hm0]
  have hsing : singleClass (trainLabels exSlicesB 1) = false := by
    rw [hlab]; decide
  exact (C6_recorded_indices exSlicesB 1).mpr
    ⟨by norm_num, ⟨0, by norm_num, by decide⟩, by decide, by decide, hsing,
     fun u hu => by
       have hu0 : u = 0 := by omega
       subst hu0
       decide⟩

/-- Lookup misses every association list none of whose keys is the sought
one. -/
theorem lookup_eq_none_of_no_key (d : List (String × ℚ)) (c : String)
    (h : ∀ p ∈ d, p.1 ≠ c) : d.lookup c = none := by
  induction d with
  | nil => rfl
  | cons a d ih =>
    rw [List.lookup_cons]
    have hb : (c == a.1) = false :=
      beq_eq_false_iff_ne.mpr (fun e => h a (List.mem_cons_self a d) e.symm)
    rw [hb]
    exact ih (fun p hp => h p (List.mem_cons_of_mem a hp))

/-- C7: the Precision@K value of one evaluated backtest segment always
lies in [0, 1]; an empty top-K list (K = 0) or an empty true-positive set
yields 0 through the max(1, ·) denominator — never an error or a division
by zero. -/
theorem C7_precision_bounds (top truth : List String) :
    0 ≤ precisionAtK top truth ∧ precisionAtK top truth ≤ 1 ∧
    (top = [] → precisionAtK top truth = 0) ∧
    (truth = [] → precisionAtK top truth = 0) := by
  have hden : (0 : ℚ) < ((max 1 top.length : ℕ) : ℚ) := by
    exact_mod_cast Nat.lt_of_lt_of_le Nat.zero_lt_one (le_max_left 1 _)
  refine ⟨?_, ?_, ?_, ?_⟩
  · exact div_nonneg (by positivity) (by positivity)
  · rw [precisionAtK, div_le_one hden]
    exact_mod_cast le_trans (List.countP_le_length _) (le_max_right 1 _)
  · intro h; subst h; simp [precisionAtK]
  · intro h; subst h; simp [precisionAtK]

/-- C7 witness: the K = 0 segment (empty top list) scores exactly 0, and
the bounds hold there. -/
theorem C7_witness :
    0 ≤ precisionAtK [] ["x"] ∧ precisionAtK [] ["x"] ≤ 1 ∧
    (([] : List String) = [] → precisionAtK [] ["x"] = 0) ∧
    (["x"] = ([] : List String) → precisionAtK [] ["x"] = 0) :=
  C7_precision_bounds [] ["x"]

/-- C8: a contract absent from the token-flow graph (touched by no flow
edge) receives 0 for betweenness, closeness and eigenvector alike, never
a missing value: whatever dicts the three ladders produced, as long as
their keys are graph nodes, the map-and-fillna step assigns the absent
contract 0 in all three columns. -/
theorem C8_isolated_zero (logs : List LogRow)
    (db dc de : List (String × ℚ)) (c : String)
    (hb : ∀ p ∈ db, p.1 ∈ nodesOfEdges (flowEdges logs))
    (hc : ∀ p ∈ dc, p.1 ∈ nodesOfEdges (flowEdges logs))
    (he : ∀ p ∈ de, p.1 ∈ nodesOfEdges (flowEdges logs))
    (habs : c ∉ nodesOfEdges (flowEdges logs)) :
    mapFillna db c = 0 ∧ mapFillna dc c = 0 ∧ mapFillna de c = 0 := by
  have key : ∀ d : List (String × ℚ),
      (∀ p ∈ d, p.1 ∈ nodesOfEdges (flowEdges logs)) → mapFillna d c = 0 := by
    intro d hd
    rw [mapFillna, lookup_eq_none_of_no_key d c
      (fun p hp e => habs (e ▸ hd p hp))]
    rfl
  exact ⟨key db hb, key dc hc, key de he⟩

/-- C8 witness: on the two-contract batch with an edge between a and b,
the fresh contract z is not a graph node, and with the three centrality
dicts keyed on the graph's nodes its three features are all 0. -/
theorem C8_witness :
    mapFillna [("a", 1/2), ("b", 1/3)] "z" = 0 ∧
    mapFillna [("a", 1/2), ("b", 1/3)] "z" = 0 ∧
    mapFillna [("a", 1/2), ("b", 1/3)] "z" = 0 :=
  C8_isolated_zero exLogsC2 _ _ _ "z"
    (by decide) (by decide) (by decide) (by decide)

/-- C9: growth-rate labeling.  For the entry at any position of the
volume table, the +1-smoothed denominator equals current+1 ≥ 1 and is
never zero (also when the current baseline volume is 0), the growth
percentage is exactly (future − current)/(current + 1) × 100, and the
entry is labeled 1 iff that percentage reaches the 0.8 quantile of the
percentages across contracts. -/
theorem C9_growth_label (vol : List (String × ℕ × ℕ)) (i : ℕ)
    (h : i < vol.length) :
    ((vol.getD i volDefault).2.1 : ℚ) + 1 ≠ 0 ∧
    1 ≤ ((vol.getD i volDefault).2.1 : ℚ) + 1 ∧
    volumeGrowthPct (vol.getD i volDefault).2.1 (vol.getD i volDefault).2.2 =
      (((vol.getD i volDefault).2.2 : ℚ) - ((vol.getD i volDefault).2.1 : ℚ)) /
        (((vol.getD i volDefault).2.1 : ℚ) + 1) * 100 ∧
    (((growthLabels vol).getD i ("", 0)).2 = 1 ↔
      panQuantile (vol.map (fun p => volumeGrowthPct p.2.1 p.2.2)) (8/10) ≤
        volumeGrowthPct (vol.getD i volDefault).2.1
          (vol.getD i volDefault).2.2) := by
  refine ⟨by positivity, by simp, rfl, ?_⟩
  have hlen : i < (growthLabels vol).length := by
    simpa [growthLabels] using h
  rw [List.getD_eq_getElem _ _ hlen, List.getD_eq_getElem _ _ h]
  simp only [growthLabels, List.getElem_map]
  split_ifs with hcond
  · simp [hcond]
  · simp [hcond]

/-- C9 witness: a contract with zero current baseline volume and future
volume 7 — the denominator is 1, the growth is 700%, and the single-entry
table labels it 1. -/
theorem C9_witness :
    (((([("a", 0, 7)] : List (String × ℕ × ℕ)).getD 0 volDefault).2.1 : ℚ))
        + 1 ≠ 0 ∧
    1 ≤ ((([("a", 0, 7)] : List (String × ℕ × ℕ)).getD 0
        volDefault).2.1 : ℚ) + 1 ∧
    volumeGrowthPct (([("a", 0, 7)] : List (String × ℕ × ℕ)).getD 0
        volDefault).2.1
      (([("a", 0, 7)] : List (String × ℕ × ℕ)).getD 0 volDefault).2.2 =
      (((([("a", 0, 7)] : List (String × ℕ × ℕ)).getD 0
          volDefault).2.2 : ℚ) -
        ((([("a", 0, 7)] : List (String × ℕ × ℕ)).getD 0
          volDefault).2.1 : ℚ)) /
        (((([("a", 0, 7)] : List (String × ℕ × ℕ)).getD 0
          volDefault).2.1 : ℚ) + 1) * 100 ∧
    (((growthLabels [("a", 0, 7)]).getD 0 ("", 0)).2 = 1 ↔
      panQuantile (([("a", 0, 7)] : List (String × ℕ × ℕ)).map
          (fun p => volumeGrowthPct p.2.1 p.2.2)) (8/10) ≤
        volumeGrowthPct (([("a", 0, 7)] : List (String × ℕ × ℕ)).getD 0
            volDefault).2.1
          (([("a", 0, 7)] : List (String × ℕ × ℕ)).getD 0 volDefault).2.2) :=
  C9_growth_label [("a", 0, 7)] 0 (by decide)

/-- The weighted accumulation, from an arbitrary running value: a fold of
additions is the running value plus the sum of the mapped list. -/
theorem foldl_add_weighted (l : List String) (f : String → ℚ) (a : ℚ) :
    l.foldl (fun acc tf => acc + f tf) a = a + (l.map f).sum := by
  induction l generalizing a with
  | nil => simp
  | cons x l ih => simp [ih, add_assoc]

/-- The combined ensemble score is the weighted sum over the loaded
timeframes. -/
theorem combinedScore_eq_sum (timeframes : List String)
    (available : String → Bool) (probOf : String → String → ℚ)
    (c : String) :
    combinedScore timeframes available probOf c =
      ((timeframes.filter available).map
        (fun tf => weightOf tf * probOf tf c)).sum := by
  rw [combinedScore]
  simpa using foldl_add_weighted (timeframes.filter available)
    (fun tf => weightOf tf * probOf tf c) 0

/-- C10: the combined ensemble score of every contract is invariant under
any permutation of the timeframe list — processing windows in any order
yields the same weighted sum (exactly, in the rational model). -/
theorem C10_order_invariance (tfs tfs2 : List String)
    (available : String → Bool) (probOf : String → String → ℚ)
    (c : String) (h : tfs.Perm tfs2) :
    combinedScore tfs available probOf c =
      combinedScore tfs2 available probOf c := by
  rw [combinedScore_eq_sum, combinedScore_eq_sum]
  exact List.Perm.sum_eq (List.Perm.map _ (List.Perm.filter available h))

/-- C10 witness: swapping the 1D and 3D windows leaves the combined score
of a concrete contract unchanged. -/
theorem C10_witness :
    combinedScore ["1D", "3D"] (fun _ => true) (fun _ _ => 1/2) "c" =
      combinedScore ["3D", "1D"] (fun _ => true) (fun _ _ => 1/2) "c" :=
  C10_order_invariance ["1D", "3D"] ["3D", "1D"] (fun _ => true)
    (fun _ _ => 1/2) "c" (List.Perm.swap "3D" "1D" [])
